import Mathlib

/-!
Shallow embedding of the HTML sanitizer of the RSSreader repository
(src/content/sanitizer/sanitizer.go, package sanitizer), together with
theorems settling the frozen claims about it.

Strings are modelled as lists of characters (`Str`).  The external HTML
tokenizer (golang.org/x/net/html) is a black box producing a stream of
typed tokens, so the sanitize operation is embedded as a function over a
token list plus the tokenizer's terminal signal (end of stream or fatal
error).  Allowlist tables and URL helpers that live in repository files
outside the provided sources (the SVG tables, the URI scheme set,
htmlutil.AbsoluteUrl, htmlutil.URLDomain, strconv.ParseFloat) are
modelled from the specification as fields of a `Config` record; theorems
quantify over any such configuration, adding only the constraints the
specification states.
-/

abbrev Str := List Char

/-- Characters matched by the Go regular expression class backslash-s
(RE2 semantics): tab, newline, form feed, carriage return and space.
Used by the srcset splitting regular expression of the source. -/
def isRegexSpace (c : Char) : Bool :=
  c == '\t' || c == '\n' || c == '\x0c' || c == '\r' || c == ' '

/-- Characters recognised by Go's unicode.IsSpace, used by
strings.TrimSpace in sanitizeSrcsetAttr. -/
def goIsSpace (c : Char) : Bool :=
  c == '\t' || c == '\n' || c == '\x0b' || c == '\x0c' || c == '\r' || c == ' '
  || [0x85, 0xa0, 0x1680, 0x2028, 0x2029, 0x202f, 0x205f, 0x3000].contains c.toNat
  || (decide (0x2000 ≤ c.toNat) && decide (c.toNat ≤ 0x200a))

/-- Go strings.TrimSpace: drop leading and trailing white space. -/
def goTrimSpace (s : Str) : Str :=
  ((s.dropWhile goIsSpace).reverse.dropWhile goIsSpace).reverse

/-- Go strings.Split with a one-character separator: the list of
(possibly empty) pieces between occurrences of the separator. -/
def goSplit (sep : Char) : Str → List Str
  | [] => [[]]
  | c :: rest =>
    let r := goSplit sep rest
    if c == sep then [] :: r
    else
      match r with
      | [] => [[c]]
      | h :: t => (c :: h) :: t

/-- Go strings.Join with a separator string. -/
def goJoin (sep : Str) : List Str → Str
  | [] => []
  | [x] => x
  | x :: y :: rest => x ++ sep ++ goJoin sep (y :: rest)

/-- Split on the regular expression of the source, comma followed by one
or more white-space characters, consuming a maximal white-space run
(RE2 leftmost greedy matching of the pattern).  The accumulator holds
the current piece reversed. -/
def splitSrcsetAux : Str → Str → List Str
  | [], acc => [acc.reverse]
  | c :: rest, acc =>
    if c == ',' then
      match rest with
      | [] => [(c :: acc).reverse]
      | d :: rest' =>
        if isRegexSpace d then acc.reverse :: splitSrcsetAux (rest'.dropWhile isRegexSpace) []
        else splitSrcsetAux (d :: rest') (c :: acc)
    else splitSrcsetAux rest (c :: acc)
termination_by s _ => s.length
decreasing_by
  · simp only [List.length_cons]
    have := (List.dropWhile_sublist (l := rest') isRegexSpace).length_le
    omega
  · simp only [List.length_cons]; omega
  · simp only [List.length_cons]; omega

/-- The rest of the string after the first occurrence of a pattern, if
the pattern occurs. -/
def afterSub (pat : Str) : Str → Option Str
  | [] => if pat == [] then some [] else none
  | c :: rest =>
    if pat.isPrefixOf (c :: rest) then some ((c :: rest).drop pat.length)
    else afterSub pat rest

/-- Does the needle occur as a contiguous substring of the haystack?
Go strings.Contains. -/
def infixOfB (needle : Str) : Str → Bool
  | [] => needle == []
  | c :: rest => needle.isPrefixOf (c :: rest) || infixOfB needle rest

/-- Go html.EscapeString on one character: the five characters the
escaper replaces, everything else kept. -/
def escapeChar (c : Char) : Str :=
  if c == '&' then "&amp;".toList
  else if c == '\'' then "&#39;".toList
  else if c == '<' then "&lt;".toList
  else if c == '>' then "&gt;".toList
  else if c == '"' then "&#34;".toList
  else [c]

/-- Go html.EscapeString. -/
def escapeString (s : Str) : Str := s.flatMap escapeChar

/-- Go strings.SplitN(src, ":", 2)[0]: everything before the first
colon, the entire string when there is no colon. -/
def goScheme (s : Str) : Str := s.takeWhile (fun c => c ≠ ':')

/-- Tokens delivered by the external HTML tokenizer (a black box in the
specification): text, start tag, end tag, self-closing tag.  Tag tokens
carry the tag name and the ordered attribute list of (name, value)
pairs. -/
inductive Token where
  | textTok (data : Str)
  | startTag (name : Str) (attrs : List (Str × Str))
  | endTag (name : Str)
  | selfClosingTag (name : Str) (attrs : List (Str × Str))

/-- Terminal signal of the tokenizer: normal end of stream (io.EOF) or
any other, fatal, tokenizer error. -/
inductive Termination where
  | eof
  | fatalError

/-- Transient per-call state of Sanitize: the output buffer, the stack
of open kept tags, the most recently seen start-tag name, and the
blocked-subtree depth counter (a Go int, so an integer without any
floor). -/
structure SanitizeState where
  buffer : Str
  tagStack : List Str
  parentTag : Str
  blacklistedTagDepth : Int

/-- Modelled from the spec: tables and helpers of this repository that
are not among the provided sources.  `allowedSvgTags`,
`allowedSvgFilters` and `allowedSvgAttrs` are the SVG tag, SVG filter
and global SVG attribute allowlists; `allowedURISchemes` is the URI
scheme allowlist; `absoluteUrl value baseURL` is
htmlutil.AbsoluteUrl, resolving value against baseURL and returning the
empty string on failure; `urlDomain` is htmlutil.URLDomain, the host
portion of a URL; `parseFloat32Ok` reports whether
strconv.ParseFloat(s, 32) succeeds. -/
structure Config where
  allowedSvgTags : List Str
  allowedSvgFilters : List Str
  allowedSvgAttrs : List Str
  allowedURISchemes : List Str
  absoluteUrl : Str → Str → Str
  urlDomain : Str → Str
  parseFloat32Ok : Str → Bool

/-- The HTML tag allowlist of getTagAllowList, mapping each tag name to
its permitted attribute names, in source order. -/
def getTagAllowList : List (Str × List Str) :=
  ([("img", ["alt", "title", "src", "srcset", "sizes"]),
    ("picture", []),
    ("audio", ["src"]),
    ("video", ["poster", "height", "width", "src"]),
    ("source", ["src", "type", "srcset", "sizes", "media"]),
    ("dt", []), ("dd", []), ("dl", []),
    ("table", []), ("caption", []), ("thead", []), ("tfooter", []),
    ("tr", []), ("td", ["rowspan", "colspan"]), ("th", ["rowspan", "colspan"]),
    ("h1", []), ("h2", []), ("h3", []), ("h4", []), ("h5", []), ("h6", []),
    ("strong", []), ("em", []), ("code", []), ("pre", []),
    ("blockquote", []), ("q", ["cite"]), ("p", []),
    ("ul", []), ("li", []), ("ol", []), ("br", []),
    ("del", []), ("a", ["href", "title"]),
    ("figure", []), ("figcaption", []), ("cite", []),
    ("time", ["datetime"]), ("abbr", ["title"]), ("acronym", ["title"]),
    ("wbr", []), ("dfn", []), ("sub", []), ("sup", []),
    ("var", []), ("samp", []), ("s", []), ("del", []), ("ins", []),
    ("kbd", []), ("rp", []), ("rt", []), ("rtc", []), ("ruby", []),
    ("iframe", ["width", "height", "frameborder", "src", "allowfullscreen"])]
    : List (String × List String)).map
    (fun p => (p.1.toList, p.2.map String.toList))

/-- Modelled from the spec: the per-tag attribute table `allowedAttrs`
is the tag allowlist mapping (its construction from getTagAllowList is
not among the provided sources). -/
def allowedAttrs : List (Str × List Str) := getTagAllowList

/-- Modelled from the spec: the HTML tag table `allowedTags` is the
domain of the tag allowlist mapping. -/
def allowedTags : List Str := allowedAttrs.map Prod.fst

/-- isValidTag: the tag is in the HTML table, the SVG tag table or the
SVG filter table. -/
def isValidTag (cfg : Config) (tagName : Str) : Bool :=
  allowedTags.contains tagName || cfg.allowedSvgTags.contains tagName
    || cfg.allowedSvgFilters.contains tagName

/-- isValidAttribute: per-tag HTML attribute allowlist, with the global
SVG attribute set as fallback for SVG tags. -/
def isValidAttribute (cfg : Config) (tagName attributeName : Str) : Bool :=
  match allowedAttrs.find? (fun p => p.1 == tagName) with
  | some p => p.2.contains attributeName
  | none =>
    if cfg.allowedSvgTags.contains tagName then cfg.allowedSvgAttrs.contains attributeName
    else false

/-- isExternalResourceAttribute: src, href, poster, cite. -/
def isExternalResourceAttribute (attr0 : Str) : Bool :=
  attr0 == "src".toList || attr0 == "href".toList
    || attr0 == "poster".toList || attr0 == "cite".toList

/-- The required-attribute table of hasRequiredAttributes. -/
def requiredAttrTable : List (Str × List Str) :=
  ([("a", ["href"]), ("iframe", ["src"]), ("img", ["src"]),
    ("source", ["src", "srcset"])] : List (String × List String)).map
    (fun p => (p.1.toList, p.2.map String.toList))

/-- hasRequiredAttributes: a tag in the required-attribute table must
keep at least one of its required attributes; all other tags pass.
(The Go map iteration order is immaterial: at most one key equals the
tag name.) -/
def hasRequiredAttributes (tagName : Str) (attributes : List Str) : Bool :=
  match requiredAttrTable.find? (fun p => p.1 == tagName) with
  | some p => attributes.any (fun attr0 => p.2.contains attr0)
  | none => true

/-- hasValidURIScheme: the prefix before the first colon is in the URI
scheme allowlist. -/
def hasValidURIScheme (cfg : Config) (src : Str) : Bool :=
  cfg.allowedURISchemes.contains (goScheme src)

/-- The resource blacklist of isBlockedResource. -/
def blockedResourceList : List Str :=
  (["feedsportal.com", "api.flattr.com", "stats.wordpress.com",
    "plus.google.com/share", "twitter.com/share", "feeds.feedburner.com"]
    : List String).map String.toList

/-- isBlockedResource: substring match of any blacklist entry. -/
def isBlockedResource (src : Str) : Bool :=
  blockedResourceList.any (fun element => infixOfB element src)

/-- The iframe domain whitelist of isValidIframeSource. -/
def iframeWhitelist : List Str :=
  (["bandcamp.com", "cdn.embedly.com", "invidio.us", "player.bilibili.com",
    "player.vimeo.com", "soundcloud.com", "vk.com", "w.soundcloud.com",
    "www.dailymotion.com", "www.youtube-nocookie.com", "www.youtube.com"]
    : List String).map String.toList

/-- isValidIframeSource: same domain as the base URL, or a whitelisted
domain. -/
def isValidIframeSource (cfg : Config) (baseURL src : Str) : Bool :=
  let domain := cfg.urlDomain src
  cfg.urlDomain baseURL == domain || iframeWhitelist.contains domain

/-- The video whitelist of isVideoIframe. -/
def videoWhitelist : List Str :=
  (["player.bilibili.com", "player.vimeo.com", "www.dailymotion.com",
    "www.youtube-nocookie.com", "www.youtube.com"] : List String).map String.toList

/-- isVideoIframe: the token is an iframe whose first src attribute has
a whitelisted video domain (the Go loop returns on the first src). -/
def isVideoIframe (cfg : Config) (tagName : Str) (attrs : List (Str × Str)) : Bool :=
  if tagName == "iframe".toList then
    match attrs.find? (fun attr => attr.1 == "src".toList) with
    | some attr => videoWhitelist.contains (cfg.urlDomain attr.2)
    | none => false
  else false

/-- The blocked-tag blacklist of isBlockedTag. -/
def blockedTagList : List Str :=
  (["noscript", "script", "style"] : List String).map String.toList

/-- isBlockedTag: noscript, script, style. -/
def isBlockedTag (tagName : Str) : Bool :=
  blockedTagList.any (fun element => element == tagName)

/-- inList of the source: membership test by equality. -/
def inList (needle : Str) (haystack : List Str) : Bool :=
  haystack.any (fun element => element == needle)

/-- The data-URI prefix allowlist of isValidDataAttribute. -/
def dataAttributeAllowList : List Str :=
  (["data:image/avif", "data:image/apng", "data:image/png", "data:image/svg",
    "data:image/svg+xml", "data:image/jpg", "data:image/jpeg",
    "data:image/gif", "data:image/webp"] : List String).map String.toList

/-- isValidDataAttribute: the value starts with an allowlisted data-URI
prefix. -/
def isValidDataAttribute (value : Str) : Bool :=
  dataAttributeAllowList.any (fun p => p.isPrefixOf value)

/-- isValidWidthOrDensityDescriptor: nonempty, last character w or x,
and the remaining prefix parses as a 32-bit float. -/
def isValidWidthOrDensityDescriptor (cfg : Config) (value : Str) : Bool :=
  if value == [] then false
  else
    let lastChar := value.getLastD ' '
    if !(lastChar == 'w') && !(lastChar == 'x') then false
    else cfg.parseFloat32Ok value.dropLast

/-- The URL-part rule shared by the code and the claim: kept verbatim
when it starts with data:, otherwise resolved against the base URL,
failing when resolution returns the empty string. -/
def srcsetUrlPart (cfg : Config) (baseURL parts0 : Str) : Option Str :=
  if "data:".toList.isPrefixOf parts0 then some parts0
  else
    let resolved := cfg.absoluteUrl parts0 baseURL
    if resolved == [] then none else some resolved

/-- One candidate of sanitizeSrcsetAttr: trim, split on single spaces;
the first part is kept verbatim when it starts with data: and resolved
against the base URL otherwise (dropping the candidate when resolution
fails); a descriptor is appended exactly when there are exactly two
parts and the second is a valid width/density descriptor. -/
def srcsetCandidate (cfg : Config) (baseURL rawSource : Str) : Option Str :=
  match goSplit ' ' (goTrimSpace rawSource) with
  | [] => none
  | parts0 :: rest =>
    match srcsetUrlPart cfg baseURL parts0 with
    | none => none
    | some sanitizedSource =>
      match rest with
      | [parts1] =>
        if isValidWidthOrDensityDescriptor cfg parts1 then
          some (sanitizedSource ++ ' ' :: parts1)
        else some sanitizedSource
      | _ => some sanitizedSource

/-- sanitizeSrcsetAttr: split on the comma-plus-whitespace regular
expression, sanitize each candidate, join the survivors with a comma
and a space. -/
def sanitizeSrcsetAttr (cfg : Config) (baseURL value : Str) : Str :=
  goJoin ", ".toList (List.filterMap (srcsetCandidate cfg baseURL) (splitSrcsetAux value []))

/-- The body of the attribute loop of sanitizeAttributes for one source
attribute: the final value when the attribute survives, none when a
continue drops it. -/
def keptAttribute (cfg : Config) (baseURL tagName key rawValue : Str) : Option Str :=
  if isValidAttribute cfg tagName key then
    let value :=
      if (tagName == "img".toList || tagName == "source".toList)
          && key == "srcset".toList then
        sanitizeSrcsetAttr cfg baseURL rawValue
      else rawValue
    if isExternalResourceAttribute key then
      if tagName == "iframe".toList then
        if isValidIframeSource cfg baseURL rawValue then some rawValue else none
      else if tagName == "img".toList && key == "src".toList
          && isValidDataAttribute rawValue then
        some rawValue
      else
        let resolved := cfg.absoluteUrl value baseURL
        if resolved == [] then none
        else if !hasValidURIScheme cfg resolved || isBlockedResource resolved then none
        else some resolved
    else some value
  else none

/-- The surviving source attributes of sanitizeAttributes, as (name,
final value) pairs in source order. -/
def sanitizeAttrPairs (cfg : Config) (baseURL tagName : Str)
    (attributes : List (Str × Str)) : List (Str × Str) :=
  attributes.filterMap
    (fun attr0 =>
      (keptAttribute cfg baseURL tagName attr0.1 attr0.2).map
        (fun v => (attr0.1, v)))

/-- Serialization of one surviving attribute, as in the source:
name="htmlEscape(value)". -/
def renderAttr (p : Str × Str) : Str :=
  p.1 ++ '=' :: '"' :: (escapeString p.2 ++ ['"'])

/-- getExtraAttributes: the fixed injected attributes per tag. -/
def getExtraAttributes (tagName : Str) : List Str × List Str :=
  if tagName == "a".toList then
    (["rel", "target", "referrerpolicy"].map String.toList,
     ["rel=\"noopener noreferrer\"", "target=\"_blank\"",
      "referrerpolicy=\"no-referrer\""].map String.toList)
  else if tagName == "video".toList || tagName == "audio".toList then
    (["controls"].map String.toList, ["controls"].map String.toList)
  else if tagName == "iframe".toList then
    (["sandbox", "loading"].map String.toList,
     ["sandbox=\"allow-scripts allow-same-origin allow-popups\"",
      "loading=\"lazy\""].map String.toList)
  else if tagName == "img".toList then
    (["loading"].map String.toList, ["loading=\"lazy\""].map String.toList)
  else ([], [])

/-- sanitizeAttributes: surviving attribute names (source attributes
then injected extras) and the space-joined serialized attribute
string. -/
def sanitizeAttributes (cfg : Config) (baseURL tagName : Str)
    (attributes : List (Str × Str)) : List Str × Str :=
  let pairs := sanitizeAttrPairs cfg baseURL tagName attributes
  let extras := getExtraAttributes tagName
  (pairs.map Prod.fst ++ extras.1,
   goJoin " ".toList (pairs.map renderAttr ++ extras.2))

/-- The iframe tag name. -/
def iframeStr : Str := "iframe".toList

/-- The fixed wrapper opened around video iframes. -/
def wrapperOpen : Str := "<div class=\"video-wrapper\">".toList

/-- The auto-close emitted after every kept iframe start tag. -/
def closeIframeStr : Str := "</iframe>".toList

/-- The wrapper close emitted after a wrapped iframe. -/
def closeDivStr : Str := "</div>".toList

/-- One iteration of the token loop of Sanitize. -/
def sanitizeStep (cfg : Config) (baseURL : Str) (st : SanitizeState) (token : Token) :
    SanitizeState :=
  match token with
  | .textTok data =>
    if st.blacklistedTagDepth > 0 then st
    else if st.parentTag == iframeStr then st
    else { st with buffer := st.buffer ++ escapeString data }
  | .startTag tagName attrs =>
    if isValidTag cfg tagName then
      let p := sanitizeAttributes cfg baseURL tagName attrs
      if hasRequiredAttributes tagName p.1 then
        let wrap := isVideoIframe cfg tagName attrs
        let openTag : Str :=
          if p.1.length > 0 then '<' :: (tagName ++ ' ' :: (p.2 ++ ['>']))
          else '<' :: (tagName ++ ['>'])
        if tagName == iframeStr then
          { st with parentTag := tagName,
                    buffer := st.buffer ++ ((if wrap then wrapperOpen else []) ++ openTag
                      ++ closeIframeStr ++ (if wrap then closeDivStr else [])) }
        else
          { st with parentTag := tagName,
                    buffer := st.buffer ++ ((if wrap then wrapperOpen else []) ++ openTag),
                    tagStack := st.tagStack ++ [tagName] }
      else { st with parentTag := tagName }
    else if isBlockedTag tagName then
      { st with parentTag := tagName,
                blacklistedTagDepth := st.blacklistedTagDepth + 1 }
    else { st with parentTag := tagName }
  | .endTag tagName =>
    if tagName == iframeStr then st
    else if isValidTag cfg tagName && inList tagName st.tagStack then
      { st with buffer := st.buffer ++ ('<' :: '/' :: (tagName ++ ['>'])) }
    else if isBlockedTag tagName then
      { st with blacklistedTagDepth := st.blacklistedTagDepth - 1 }
    else st
  | .selfClosingTag tagName attrs =>
    if isValidTag cfg tagName then
      let p := sanitizeAttributes cfg baseURL tagName attrs
      if hasRequiredAttributes tagName p.1 then
        if p.1.length > 0 then
          { st with buffer := st.buffer ++ ('<' :: (tagName ++ ' ' :: (p.2 ++ ['/', '>']))) }
        else
          { st with buffer := st.buffer ++ ('<' :: (tagName ++ ['/', '>'])) }
      else st
    else st

/-- The fresh state allocated at the start of each Sanitize call. -/
def initialState : SanitizeState := ⟨[], [], [], 0⟩

/-- Folding the token loop over a token list from a given state. -/
def processTokens (cfg : Config) (baseURL : Str) (st : SanitizeState)
    (tokens : List Token) : SanitizeState :=
  tokens.foldl (sanitizeStep cfg baseURL) st

/-- The token loop of Sanitize: consume tokens one at a time; at the
end of the stream return the accumulated buffer on io.EOF and the empty
string on any other tokenizer error. -/
def sanitizeLoop (cfg : Config) (baseURL : Str) :
    List Token → Termination → SanitizeState → Str
  | [], .eof, st => st.buffer
  | [], .fatalError, _ => []
  | token :: rest, term, st =>
    sanitizeLoop cfg baseURL rest term (sanitizeStep cfg baseURL st token)

/-- Sanitize: run the token loop from the fresh per-call state. -/
def Sanitize (cfg : Config) (baseURL : Str) (tokens : List Token)
    (term : Termination) : Str :=
  sanitizeLoop cfg baseURL tokens term initialState

/-- The srcset candidate rule in the wording of the specification
(claim C7): the candidate is split at its first space into a URL part
and an optional descriptor part.  The URL part is kept verbatim exactly
when it starts with data:, otherwise it is resolved against the base
URL and the whole candidate is dropped when resolution fails; the
descriptor is kept exactly when it is non-empty, its last character is
w or x and the remaining prefix parses as a floating-point number,
otherwise the descriptor alone is dropped. -/
def srcsetCandidateSpec (cfg : Config) (baseURL rawSource : Str) : Option Str :=
  let t := goTrimSpace rawSource
  let urlPart := t.takeWhile (fun c => c ≠ ' ')
  let rest := t.drop urlPart.length
  match srcsetUrlPart cfg baseURL urlPart with
  | none => none
  | some u =>
    match rest with
    | [] => some u
    | _ :: descriptor =>
      if descriptor ≠ [] ∧ (descriptor.getLastD ' ' = 'w' ∨ descriptor.getLastD ' ' = 'x')
          ∧ cfg.parseFloat32Ok descriptor.dropLast = true then
        some (u ++ ' ' :: descriptor)
      else some u

/-- Modelled from the spec: htmlutil.URLDomain is not among the
provided sources; the glossary defines the registrable domain as "the
host portion of a URL".  The host is what follows a scheme separator
"://" (or a leading "//") up to the next path, query or fragment
delimiter; a URL with no authority component has an empty host. -/
def urlDomainM (u : Str) : Str :=
  match afterSub "://".toList u with
  | some rest => rest.takeWhile (fun c => c ≠ '/' ∧ c ≠ '?' ∧ c ≠ '#')
  | none =>
    if "//".toList.isPrefixOf u then
      (u.drop 2).takeWhile (fun c => c ≠ '/' ∧ c ≠ '?' ∧ c ≠ '#')
    else []

/-- Modelled from the spec: the URI scheme allowlist is not among the
provided sources; the specification names http, https and mailto as its
examples. -/
def uriSchemesM : List Str :=
  (["http", "https", "mailto"] : List String).map String.toList

/-- Resolution function used by the concrete witness configuration:
absolute URLs (containing "://") are returned unchanged, the empty
value fails to resolve, and anything else is appended to the base
URL. -/
def absUrlW (value baseURL : Str) : Str :=
  if value == [] then []
  else if infixOfB "://".toList value then value
  else baseURL ++ value

/-- Float parser used by the concrete witness configuration: accepts
exactly the non-empty digit strings (a subset of what
strconv.ParseFloat accepts, and false on any string with a space). -/
def pfW (s : Str) : Bool := !s.isEmpty && s.all Char.isDigit

/-- Concrete configuration used by witnesses and counterexamples:
empty SVG tables, the specification's example URI schemes, and the
modelled URL helpers. -/
def cfgW : Config :=
  { allowedSvgTags := [], allowedSvgFilters := [], allowedSvgAttrs := [],
    allowedURISchemes := uriSchemesM, absoluteUrl := absUrlW,
    urlDomain := urlDomainM, parseFloat32Ok := pfW }

/-- The blocked tag names whose serializations the spec forbids in any
output. -/
def badNames : List Str :=
  (["script", "style", "noscript"] : List String).map String.toList

/-- The three substrings the spec forbids in any output. -/
def badPatterns : List Str := badNames.map (fun n => '<' :: n)

/-- A chunk is harmless when it neither contains a forbidden pattern
nor ends in a nonempty prefix of one; this is the form in which absence
of the forbidden patterns is preserved under appending further harmless
chunks. -/
def ChunkOK (c : Str) : Prop :=
  ∀ b ∈ badPatterns, ¬ b <:+: c ∧ ∀ k < b.length + 1, 0 < k → ¬ b.take k <:+ c

/-- A serializable tag name: it contains no left angle bracket and does
not extend any blocked tag name. -/
def TagOK (t : Str) : Prop := '<' ∉ t ∧ ∀ bn ∈ badNames, ¬ bn <+: t

/-- The constraints the specification imposes on the SVG tables: no SVG
tag or filter name extends a blocked tag name (blocked tags are never
valid), and names contain no left angle bracket. -/
def SvgTablesOK (cfg : Config) : Prop :=
  (∀ t ∈ cfg.allowedSvgTags ++ cfg.allowedSvgFilters, TagOK t) ∧
  ∀ a ∈ cfg.allowedSvgAttrs, '<' ∉ a

/-- A concrete base URL used by witnesses. -/
def exBase : Str := "https://ex.com/".toList

/-- A concrete iframe attribute list used by witnesses. -/
def ytAttrs : List (Str × Str) := [("src".toList, "https://www.youtube.com/embed/1".toList)]

theorem containsB_iff {l : List Str} {a : Str} : l.contains a = true ↔ a ∈ l := by
  simp [List.contains]

theorem inList_iff {t : Str} {l : List Str} : inList t l = true ↔ t ∈ l := by
  simp only [inList, List.any_eq_true, beq_iff_eq]
  constructor
  · rintro ⟨x, hx, rfl⟩; exact hx
  · intro h; exact ⟨t, h, rfl⟩

theorem sanitizeLoop_fatal (cfg : Config) (baseURL : Str) :
    ∀ (tokens : List Token) (st : SanitizeState),
      sanitizeLoop cfg baseURL tokens .fatalError st = [] := by
  intro tokens
  induction tokens with
  | nil => intro st; rfl
  | cons t ts ih => intro st; exact ih _

theorem sanitizeLoop_eof (cfg : Config) (baseURL : Str) :
    ∀ (tokens : List Token) (st : SanitizeState),
      sanitizeLoop cfg baseURL tokens .eof st = (processTokens cfg baseURL st tokens).buffer := by
  intro tokens
  induction tokens with
  | nil => intro st; rfl
  | cons t ts ih => intro st; exact ih _

/-- C4: on a fatal tokenizer error Sanitize returns the empty string,
discarding everything accumulated so far; on normal end of stream it
returns exactly the buffer accumulated by processing all tokens. -/
theorem c4_fail_closed (cfg : Config) (baseURL : Str) (tokens : List Token) :
    Sanitize cfg baseURL tokens .fatalError = [] ∧
    Sanitize cfg baseURL tokens .eof =
      (processTokens cfg baseURL initialState tokens).buffer :=
  ⟨sanitizeLoop_fatal cfg baseURL tokens initialState,
   sanitizeLoop_eof cfg baseURL tokens initialState⟩

/-- C10: every start-tag token sets the most-recent-tag state to its
name (also when the tag is dropped or skipped); end-tag, self-closing
and text tokens never change it; and a text token arriving while the
most recent tag is iframe leaves the whole state unchanged, so such
text is dropped from the output. -/
theorem c10_parent_tag_behaviour :
    (∀ (cfg : Config) (baseURL : Str) (st : SanitizeState) (t : Str)
        (attrs : List (Str × Str)),
        (sanitizeStep cfg baseURL st (.startTag t attrs)).parentTag = t) ∧
    (∀ (cfg : Config) (baseURL : Str) (st : SanitizeState) (t : Str),
        (sanitizeStep cfg baseURL st (.endTag t)).parentTag = st.parentTag) ∧
    (∀ (cfg : Config) (baseURL : Str) (st : SanitizeState) (t : Str)
        (attrs : List (Str × Str)),
        (sanitizeStep cfg baseURL st (.selfClosingTag t attrs)).parentTag = st.parentTag) ∧
    (∀ (cfg : Config) (baseURL : Str) (st : SanitizeState) (d : Str),
        (sanitizeStep cfg baseURL st (.textTok d)).parentTag = st.parentTag) ∧
    (∀ (cfg : Config) (baseURL : Str) (st : SanitizeState) (d : Str),
        st.parentTag = iframeStr → sanitizeStep cfg baseURL st (.textTok d) = st) := by
  refine ⟨?_, ?_, ?_, ?_, ?_⟩
  · intro cfg baseURL st t attrs
    simp only [sanitizeStep]
    split <;> [skip; split] <;> (try split) <;> (try split) <;> rfl
  · intro cfg baseURL st t
    simp only [sanitizeStep]
    split <;> (try split) <;> (try split) <;> rfl
  · intro cfg baseURL st t attrs
    simp only [sanitizeStep]
    split <;> (try split) <;> (try split) <;> rfl
  · intro cfg baseURL st d
    simp only [sanitizeStep]
    split <;> (try split) <;> rfl
  · intro cfg baseURL st d h
    simp [sanitizeStep, h]

/-- C10 witness: a concrete text token directly after an iframe start
tag is dropped. -/
theorem c10_parent_tag_behaviour_witness :
    sanitizeStep cfgW [] ⟨[], [], "iframe".toList, 0⟩ (.textTok "hi".toList) =
      (⟨[], [], "iframe".toList, 0⟩ : SanitizeState) :=
  c10_parent_tag_behaviour.2.2.2.2 cfgW [] _ "hi".toList (by decide)

/-- C3 counterexample: a stray close tag for a blocked subtree that was
never opened drives the depth counter to minus one, and it is not a
no-op: after it, the text inside a following script element leaks into
the output, while without the stray close tag that text is
suppressed. -/
theorem c3_counterexample :
    (processTokens cfgW [] initialState
        [Token.endTag "script".toList]).blacklistedTagDepth = -1 ∧
    Sanitize cfgW [] [Token.endTag "script".toList, Token.startTag "script".toList [],
        Token.textTok "alert(1)".toList] .eof = "alert(1)".toList ∧
    Sanitize cfgW [] [Token.startTag "script".toList [],
        Token.textTok "alert(1)".toList] .eof = [] := by
  decide

theorem isBlockedTag_cases {t : Str} (h : isBlockedTag t = true) :
    t = "noscript".toList ∨ t = "script".toList ∨ t = "style".toList := by
  simp only [isBlockedTag, blockedTagList, List.any_eq_true, beq_iff_eq] at h
  rcases h with ⟨x, hx, rfl⟩
  simpa using hx

/-- C3 amended: an end-tag token for a blocked tag that is not emitted
as a close tag decrements the blocked-subtree depth counter by exactly
one, with no floor, so the counter can go negative and a stray close
tag for a never-opened blocked subtree changes subsequent
text-suppression behaviour. -/
theorem c3_amended_decrement_no_floor (cfg : Config) (baseURL : Str) (st : SanitizeState)
    (t : Str) (hb : isBlockedTag t = true)
    (hnc : (isValidTag cfg t && inList t st.tagStack) = false) :
    (sanitizeStep cfg baseURL st (.endTag t)).blacklistedTagDepth =
      st.blacklistedTagDepth - 1 := by
  have hif : (t == iframeStr) = false := by
    rcases isBlockedTag_cases hb with rfl | rfl | rfl <;> decide
  simp [sanitizeStep, hif, hnc, hb]

/-- C3 amended witness: the decrement at depth zero, reaching minus
one. -/
theorem c3_amended_decrement_no_floor_witness :
    (sanitizeStep cfgW [] initialState (.endTag "script".toList)).blacklistedTagDepth =
      initialState.blacklistedTagDepth - 1 :=
  c3_amended_decrement_no_floor cfgW [] initialState "script".toList (by decide) (by decide)

/-- C9: the open-tag stack is append-only (the previous stack is a
prefix of the stack after any token; emitting a close tag never pops),
and consequently, once a kept tag name is on the stack, a run of n
end-tag tokens for it emits n close tags, so the output need not be
tag-balanced. -/
theorem c9_append_only_stack :
    (∀ (cfg : Config) (baseURL : Str) (st : SanitizeState) (token : Token),
        st.tagStack <+: (sanitizeStep cfg baseURL st token).tagStack) ∧
    (∀ (cfg : Config) (baseURL : Str) (st : SanitizeState) (t : Str) (n : Nat),
        isValidTag cfg t = true → t ≠ iframeStr → inList t st.tagStack = true →
        processTokens cfg baseURL st (List.replicate n (Token.endTag t)) =
          { st with buffer :=
              st.buffer ++ (List.replicate n ('<' :: '/' :: (t ++ ['>']))).flatten }) := by
  constructor
  · intro cfg baseURL st token
    cases token with
    | textTok d =>
      simp only [sanitizeStep]
      split <;> (try split) <;> exact List.prefix_refl _
    | startTag t attrs =>
      simp only [sanitizeStep]
      split <;> [skip; split] <;> (try split) <;> (try split) <;>
        first
          | exact List.prefix_refl _
          | exact ⟨[t], rfl⟩
    | endTag t =>
      simp only [sanitizeStep]
      split <;> (try split) <;> (try split) <;> exact List.prefix_refl _
    | selfClosingTag t attrs =>
      simp only [sanitizeStep]
      split <;> (try split) <;> (try split) <;> exact List.prefix_refl _
  · intro cfg baseURL st t n
    induction n generalizing st with
    | zero =>
      intro _ _ _
      obtain ⟨b, ts, p, d⟩ := st
      simp [processTokens]
    | succ n ih =>
      intro hv hni hin
      have hif : (t == iframeStr) = false := by
        simpa using hni
      have hstep : sanitizeStep cfg baseURL st (Token.endTag t) =
          { st with buffer := st.buffer ++ ('<' :: '/' :: (t ++ ['>'])) } := by
        simp [sanitizeStep, hif, hv, hin]
      have hrep : List.replicate (n + 1) (Token.endTag t) =
          Token.endTag t :: List.replicate n (Token.endTag t) := List.replicate_succ _ _
      rw [hrep]
      show processTokens cfg baseURL
        (sanitizeStep cfg baseURL st (Token.endTag t))
        (List.replicate n (Token.endTag t)) = _
      rw [hstep]
      rw [ih _ hv hni (by simpa using hin)]
      simp [List.replicate_succ, List.append_assoc]

/-- C9 witness: from a state with one kept p on the stack, three
end-tag tokens for p emit three close tags. -/
theorem c9_append_only_stack_witness :
    processTokens cfgW [] ⟨[], ["p".toList], [], 0⟩
        (List.replicate 3 (Token.endTag "p".toList)) =
      { (⟨[], ["p".toList], [], 0⟩ : SanitizeState) with buffer :=
          ([] : Str) ++ (List.replicate 3 ('<' :: '/' :: ("p".toList ++ ['>']))).flatten } :=
  c9_append_only_stack.2 cfgW [] ⟨[], ["p".toList], [], 0⟩ "p".toList 3
    (by decide) (by decide) (by decide)

/-- C6 counterexample: an allowlisted iframe whose src does not survive
is dropped (nothing serialized), but its children are not processed as
if the tag were absent: the text token following the dropped iframe is
suppressed, while without the iframe token it is emitted. -/
theorem c6_counterexample :
    Sanitize cfgW "https://ex.com/".toList
        [Token.startTag "iframe".toList [("src".toList, "x".toList)],
         Token.textTok "hi".toList] .eof = [] ∧
    Sanitize cfgW "https://ex.com/".toList [Token.textTok "hi".toList] .eof = "hi".toList ∧
    isValidTag cfgW "iframe".toList = true ∧
    hasRequiredAttributes "iframe".toList
      (sanitizeAttributes cfgW "https://ex.com/".toList "iframe".toList
        [("src".toList, "x".toList)]).1 = false := by
  decide

theorem hasRequired_not_listed (t : Str)
    (h : t ≠ "a".toList ∧ t ≠ "iframe".toList ∧ t ≠ "img".toList ∧ t ≠ "source".toList)
    (names : List Str) : hasRequiredAttributes t names = true := by
  obtain ⟨h1, h2, h3, h4⟩ := h
  have hfind : requiredAttrTable.find? (fun p => p.1 == t) = none := by
    rw [List.find?_eq_none]
    intro p hp
    simp only [requiredAttrTable, List.map_cons, List.map_nil, List.mem_cons,
      List.mem_singleton] at hp
    rcases hp with rfl | rfl | rfl | rfl | h0
    · simpa using fun he => h1 he.symm
    · simpa using fun he => h2 he.symm
    · simpa using fun he => h3 he.symm
    · simpa using fun he => h4 he.symm
    · simp at h0
  simp [hasRequiredAttributes, hfind]

theorem hasRequired_single (t req : String) (names : List Str)
    (hf : requiredAttrTable.find? (fun p => p.1 == t.toList) =
      some (t.toList, [req.toList])) :
    hasRequiredAttributes t.toList names = true ↔ req.toList ∈ names := by
  simp only [hasRequiredAttributes, hf]
  simp only [List.any_eq_true, containsB_iff, List.mem_singleton]
  constructor
  · rintro ⟨x, hx, rfl⟩; exact hx
  · intro h; exact ⟨_, h, rfl⟩

theorem hasRequired_source (names : List Str) :
    hasRequiredAttributes "source".toList names = true ↔
      ("src".toList ∈ names ∨ "srcset".toList ∈ names) := by
  have hf : requiredAttrTable.find? (fun p => p.1 == "source".toList) =
      some ("source".toList, ["src".toList, "srcset".toList]) := by decide
  simp only [hasRequiredAttributes, hf]
  simp only [List.any_eq_true, containsB_iff, List.mem_cons, List.mem_singleton,
    List.not_mem_nil, or_false]
  constructor
  · rintro ⟨x, hx, h⟩
    rcases h with rfl | rfl
    · exact Or.inl hx
    · exact Or.inr hx
  · rintro (h | h)
    · exact ⟨_, h, Or.inl rfl⟩
    · exact ⟨_, h, Or.inr rfl⟩

/-- C6 amended: an allowlisted start or self-closing tag whose
required attribute did not survive (a without href; iframe or img
without src; source with neither src nor srcset) serializes nothing,
is not pushed on the open tag stack, and changes no counter.  For a
dropped self-closing tag the state is entirely unchanged, but a
dropped start tag still updates the most-recent-tag state, so text
directly after a dropped iframe start tag is suppressed rather than
treated as if the tag were absent.  Tags outside the
required-attribute table always pass the requirement, and any valid
passing start or self-closing tag is serialized as a nonempty chunk
even with an empty surviving attribute list. -/
theorem c6_required_attributes :
    (∀ (cfg : Config) (baseURL : Str) (st : SanitizeState) (t : Str)
        (attrs : List (Str × Str)),
        isValidTag cfg t = true →
        hasRequiredAttributes t (sanitizeAttributes cfg baseURL t attrs).1 = false →
        sanitizeStep cfg baseURL st (.startTag t attrs) = { st with parentTag := t }) ∧
    (∀ names : List Str,
        (hasRequiredAttributes "a".toList names = true ↔ "href".toList ∈ names) ∧
        (hasRequiredAttributes "iframe".toList names = true ↔ "src".toList ∈ names) ∧
        (hasRequiredAttributes "img".toList names = true ↔ "src".toList ∈ names) ∧
        (hasRequiredAttributes "source".toList names = true ↔
          ("src".toList ∈ names ∨ "srcset".toList ∈ names))) ∧
    (∀ t : Str,
        t ≠ "a".toList ∧ t ≠ "iframe".toList ∧ t ≠ "img".toList ∧ t ≠ "source".toList →
        ∀ names : List Str, hasRequiredAttributes t names = true) ∧
    (∀ (cfg : Config) (baseURL : Str) (st : SanitizeState) (t : Str)
        (attrs : List (Str × Str)),
        isValidTag cfg t = true →
        hasRequiredAttributes t (sanitizeAttributes cfg baseURL t attrs).1 = true →
        ∃ chunk : Str, chunk ≠ [] ∧
          (sanitizeStep cfg baseURL st (.startTag t attrs)).buffer = st.buffer ++ chunk) ∧
    (∀ (cfg : Config) (baseURL : Str) (st : SanitizeState) (t : Str)
        (attrs : List (Str × Str)),
        isValidTag cfg t = true →
        hasRequiredAttributes t (sanitizeAttributes cfg baseURL t attrs).1 = false →
        sanitizeStep cfg baseURL st (.selfClosingTag t attrs) = st) ∧
    (∀ (cfg : Config) (baseURL : Str) (st : SanitizeState) (t : Str)
        (attrs : List (Str × Str)),
        isValidTag cfg t = true →
        hasRequiredAttributes t (sanitizeAttributes cfg baseURL t attrs).1 = true →
        ∃ chunk : Str, chunk ≠ [] ∧
          (sanitizeStep cfg baseURL st (.selfClosingTag t attrs)).buffer =
            st.buffer ++ chunk) := by
  refine ⟨?_, ?_, ?_, ?_, ?_, ?_⟩
  · intro cfg baseURL st t attrs hv hreq
    simp [sanitizeStep, hv, hreq]
  · intro names
    exact ⟨hasRequired_single "a" "href" names (by decide),
      hasRequired_single "iframe" "src" names (by decide),
      hasRequired_single "img" "src" names (by decide),
      hasRequired_source names⟩
  · intro t h names; exact hasRequired_not_listed t h names
  · intro cfg baseURL st t attrs hv hreq
    simp only [sanitizeStep, hv, hreq, if_true]
    have hopen : ∃ r : Str,
        (if (sanitizeAttributes cfg baseURL t attrs).1.length > 0 then
          '<' :: (t ++ ' ' :: ((sanitizeAttributes cfg baseURL t attrs).2 ++ ['>']))
        else '<' :: (t ++ ['>'])) = '<' :: r := by
      split <;> exact ⟨_, rfl⟩
    obtain ⟨r, hr⟩ := hopen
    split
    · refine ⟨_, ?_, rfl⟩
      rw [hr]
      simp [List.append_eq_nil]
    · refine ⟨_, ?_, rfl⟩
      rw [hr]
      simp [List.append_eq_nil]
  · intro cfg baseURL st t attrs hv hreq
    simp [sanitizeStep, hv, hreq]
  · intro cfg baseURL st t attrs hv hreq
    simp only [sanitizeStep, hv, hreq, if_true]
    split
    · refine ⟨_, ?_, rfl⟩
      simp
    · refine ⟨_, ?_, rfl⟩
      simp

/-- C6 witness: a concrete dropped iframe start tag only updates the
most-recent-tag state, and the same dropped iframe as a self-closing
token leaves the state entirely unchanged. -/
theorem c6_required_attributes_witness :
    sanitizeStep cfgW "https://ex.com/".toList initialState
        (.startTag "iframe".toList [("src".toList, "x".toList)]) =
      { initialState with parentTag := "iframe".toList } ∧
    sanitizeStep cfgW "https://ex.com/".toList initialState
        (.selfClosingTag "iframe".toList [("src".toList, "x".toList)]) = initialState :=
  ⟨c6_required_attributes.1 cfgW "https://ex.com/".toList initialState "iframe".toList
      [("src".toList, "x".toList)] (by decide) (by decide),
   c6_required_attributes.2.2.2.2.1 cfgW "https://ex.com/".toList initialState "iframe".toList
      [("src".toList, "x".toList)] (by decide) (by decide)⟩

theorem isValidTag_iframe (cfg : Config) : isValidTag cfg iframeStr = true := by
  simp only [isValidTag, Bool.or_eq_true]
  exact Or.inl (Or.inl (by decide))

/-- C5: a kept iframe start tag is serialized with its close tag
appended immediately after the opening tag, wrapped in the fixed
video-wrapper container exactly when the domain of the iframe's raw
first src attribute is in the video whitelist; the iframe is never
pushed on the open-tag stack, and explicit iframe end-tag tokens are
always ignored. -/
theorem c5_iframe_autoclose :
    (∀ (cfg : Config) (baseURL : Str) (st : SanitizeState) (attrs : List (Str × Str)),
      hasRequiredAttributes iframeStr (sanitizeAttributes cfg baseURL iframeStr attrs).1 = true →
      (sanitizeStep cfg baseURL st (.startTag iframeStr attrs)).buffer =
        st.buffer ++
          ((if isVideoIframe cfg iframeStr attrs then wrapperOpen else []) ++
            ((if (sanitizeAttributes cfg baseURL iframeStr attrs).1.length > 0 then
              '<' :: (iframeStr ++ ' ' ::
                ((sanitizeAttributes cfg baseURL iframeStr attrs).2 ++ ['>']))
            else '<' :: (iframeStr ++ ['>'])) ++
            (closeIframeStr ++
            (if isVideoIframe cfg iframeStr attrs then closeDivStr else [])))) ∧
      (sanitizeStep cfg baseURL st (.startTag iframeStr attrs)).tagStack = st.tagStack) ∧
    (∀ (cfg : Config) (attrs : List (Str × Str)),
      isVideoIframe cfg iframeStr attrs = true ↔
        ∃ pr : Str × Str, attrs.find? (fun attr0 => attr0.1 == "src".toList) = some pr ∧
          videoWhitelist.contains (cfg.urlDomain pr.2) = true) ∧
    (∀ (cfg : Config) (baseURL : Str) (st : SanitizeState),
      sanitizeStep cfg baseURL st (.endTag iframeStr) = st) := by
  refine ⟨?_, ?_, ?_⟩
  · intro cfg baseURL st attrs hreq
    simp [sanitizeStep, isValidTag_iframe cfg, hreq]
  · intro cfg attrs
    have hif : (iframeStr == "iframe".toList) = true := by decide
    simp only [isVideoIframe, hif, if_true]
    cases hf : attrs.find? (fun attr0 => attr0.1 == "src".toList) with
    | none => simp [hf]
    | some pr => simp [hf]
  · intro cfg baseURL st
    simp [sanitizeStep]

/-- C5 witness: a concrete video iframe, auto-closed and wrapped. -/
theorem c5_iframe_autoclose_witness :
    (sanitizeStep cfgW exBase initialState (.startTag iframeStr ytAttrs)).buffer =
      initialState.buffer ++
        ((if isVideoIframe cfgW iframeStr ytAttrs then wrapperOpen else []) ++
          ((if (sanitizeAttributes cfgW exBase iframeStr ytAttrs).1.length > 0 then
            '<' :: (iframeStr ++ ' ' ::
              ((sanitizeAttributes cfgW exBase iframeStr ytAttrs).2 ++ ['>']))
          else '<' :: (iframeStr ++ ['>'])) ++
          (closeIframeStr ++
          (if isVideoIframe cfgW iframeStr ytAttrs then closeDivStr else [])))) ∧
    (sanitizeStep cfgW exBase initialState (.startTag iframeStr ytAttrs)).tagStack =
      initialState.tagStack :=
  (c5_iframe_autoclose.1 cfgW exBase initialState ytAttrs (by decide))

theorem kept_resolve_case (cfg : Config) (baseURL : Str) (x v1 : Str)
    (h : (if (cfg.absoluteUrl x baseURL == []) = true then none
          else if (!hasValidURIScheme cfg (cfg.absoluteUrl x baseURL)
              || isBlockedResource (cfg.absoluteUrl x baseURL)) = true then none
          else some (cfg.absoluteUrl x baseURL)) = some v1) :
    hasValidURIScheme cfg v1 = true := by
  split at h
  · exact absurd h (by simp)
  · split at h
    · exact absurd h (by simp)
    · next hcond =>
      have hv : cfg.absoluteUrl x baseURL = v1 := by simpa using h
      have hfalse : (!hasValidURIScheme cfg (cfg.absoluteUrl x baseURL)
          || isBlockedResource (cfg.absoluteUrl x baseURL)) = false := by
        simpa using hcond
      have h2 := (Bool.or_eq_false_iff.mp hfalse).1
      rw [← hv]
      simpa using h2

/-- C2 amended: every surviving external-resource attribute value
(src, href, poster, cite) either has a scheme on the URI scheme
allowlist, or is a raw data-URI image value on an img src, or is an
iframe src kept verbatim because it passed the iframe domain check —
the iframe case is scheme-unchecked, which is what the original claim
missed. -/
theorem c2_external_resource_values (cfg : Config) (baseURL tagName : Str)
    (attrs : List (Str × Str)) (k v : Str)
    (hmem : (k, v) ∈ sanitizeAttrPairs cfg baseURL tagName attrs)
    (hext : isExternalResourceAttribute k = true) :
    hasValidURIScheme cfg v = true ∨
      (tagName = "img".toList ∧ k = "src".toList ∧ isValidDataAttribute v = true) ∨
      (tagName = "iframe".toList ∧ isValidIframeSource cfg baseURL v = true) := by
  simp only [sanitizeAttrPairs, List.mem_filterMap] at hmem
  obtain ⟨⟨k0, v0⟩, hmem0, hk⟩ := hmem
  rw [Option.map_eq_some'] at hk
  obtain ⟨v1, hkept, hpair⟩ := hk
  injection hpair with h1 h2
  subst h1
  subst h2
  simp only [keptAttribute, hext, if_true] at hkept
  split at hkept
  case isTrue hvalid =>
    split at hkept
    case isTrue hif =>
      split at hkept
      case isTrue hsrc =>
        have hv0 : v0 = v1 := by simpa using hkept
        subst hv0
        exact Or.inr (Or.inr ⟨by simpa using hif, hsrc⟩)
      case isFalse => exact absurd hkept (by simp)
    case isFalse hif =>
      split at hkept
      case isTrue hdata =>
        have hv0 : v0 = v1 := by simpa using hkept
        subst hv0
        simp only [Bool.and_eq_true, beq_iff_eq] at hdata
        exact Or.inr (Or.inl ⟨hdata.1.1, hdata.1.2, hdata.2⟩)
      case isFalse hdata =>
        left
        split at hkept <;> exact kept_resolve_case cfg baseURL _ _ hkept
  case isFalse => exact absurd hkept (by simp)

/-- C2 amended witness: a surviving iframe src at a concrete input
falls in the iframe clause. -/
theorem c2_external_resource_values_witness :
    hasValidURIScheme cfgW "javascript:evil()".toList = true ∨
      ("iframe".toList = "img".toList ∧ "src".toList = "src".toList ∧
        isValidDataAttribute "javascript:evil()".toList = true) ∨
      ("iframe".toList = "iframe".toList ∧
        isValidIframeSource cfgW [] "javascript:evil()".toList = true) :=
  c2_external_resource_values cfgW [] "iframe".toList
    [("src".toList, "javascript:evil()".toList)] "src".toList "javascript:evil()".toList
    (by decide) (by decide)

/-- C2 counterexample: with an empty base URL an iframe src value
javascript:evil() passes the same-origin domain check, survives
verbatim, and is emitted even though its scheme is not on the allowlist
and it is not a data-URI image value; so not every emitted
external-resource value has an allowlisted scheme or an allowlisted
data prefix. -/
theorem c2_counterexample :
    sanitizeAttrPairs cfgW [] "iframe".toList
        [("src".toList, "javascript:evil()".toList)] =
      [("src".toList, "javascript:evil()".toList)] ∧
    isExternalResourceAttribute "src".toList = true ∧
    hasValidURIScheme cfgW "javascript:evil()".toList = false ∧
    isValidDataAttribute "javascript:evil()".toList = false ∧
    Sanitize cfgW [] [Token.startTag "iframe".toList
        [("src".toList, "javascript:evil()".toList)]] .eof =
      ("<iframe src=\"javascript:evil()\" " ++
        "sandbox=\"allow-scripts allow-same-origin allow-popups\" " ++
        "loading=\"lazy\"></iframe>").toList := by
  decide

theorem goSplit_ne_nil (sep : Char) (t : Str) : goSplit sep t ≠ [] := by
  induction t with
  | nil => simp [goSplit]
  | cons c rest ih =>
    simp only [goSplit]
    split
    · simp
    · cases hr : goSplit sep rest with
      | nil => simp
      | cons h t' => simp

theorem goSplit_join (sep : Char) (t : Str) : goJoin [sep] (goSplit sep t) = t := by
  induction t with
  | nil => rfl
  | cons c rest ih =>
    simp only [goSplit]
    split
    case isTrue hc =>
      cases hr : goSplit sep rest with
      | nil => exact absurd hr (goSplit_ne_nil sep rest)
      | cons h t' =>
        rw [hr] at ih
        have hj : goJoin [sep] ([] :: h :: t') = sep :: goJoin [sep] (h :: t') := by
          simp [goJoin]
        rw [hj, ih]
        have hceq : c = sep := by simpa using hc
        rw [hceq]
    case isFalse hc =>
      cases hr : goSplit sep rest with
      | nil => exact absurd hr (goSplit_ne_nil sep rest)
      | cons h t' =>
        rw [hr] at ih
        cases t' with
        | nil =>
          simp only [goJoin] at ih ⊢
          rw [ih]
        | cons y ys =>
          simp only [goJoin] at ih ⊢
          rw [← ih]
          simp

theorem goSplit_no_sep (sep : Char) (t : Str) : ∀ p ∈ goSplit sep t, sep ∉ p := by
  induction t with
  | nil =>
    intro p hp
    simp only [goSplit, List.mem_singleton] at hp
    subst hp; simp
  | cons c rest ih =>
    intro p hp
    simp only [goSplit] at hp
    split at hp
    case isTrue hc =>
      rcases List.mem_cons.mp hp with rfl | hmem
      · simp
      · exact ih p hmem
    case isFalse hc =>
      cases hr : goSplit sep rest with
      | nil => exact absurd hr (goSplit_ne_nil sep rest)
      | cons h t' =>
        rw [hr] at hp
        rcases List.mem_cons.mp hp with rfl | hmem
        · intro hmem2
          rcases List.mem_cons.mp hmem2 with he | hin
          · exact hc (by simp [he.symm])
          · exact (ih h (by rw [hr]; exact List.mem_cons_self _ _)) hin
        · exact ih p (by rw [hr]; exact List.mem_cons.mpr (Or.inr hmem))

theorem takeWhile_append_sep (sep : Char) (p0 r : Str) (h : sep ∉ p0) :
    (p0 ++ sep :: r).takeWhile (fun c => c ≠ sep) = p0 := by
  induction p0 with
  | nil =>
    simp only [List.nil_append, List.takeWhile_cons]
    simp
  | cons a as ih =>
    have ha : a ≠ sep := fun he => h (he ▸ List.mem_cons_self _ _)
    have h' : sep ∉ as := fun hm => h (List.mem_cons.mpr (Or.inr hm))
    have hpa : decide (a ≠ sep) = true := by simp [ha]
    simp only [List.cons_append, List.takeWhile_cons, hpa, if_true]
    rw [ih h']

theorem takeWhile_no_sep (sep : Char) (t : Str) (h : sep ∉ t) :
    t.takeWhile (fun c => c ≠ sep) = t := by
  induction t with
  | nil => rfl
  | cons a as ih =>
    have ha : a ≠ sep := fun he => h (he ▸ List.mem_cons_self _ _)
    have h' : sep ∉ as := fun hm => h (List.mem_cons.mpr (Or.inr hm))
    have hpa : decide (a ≠ sep) = true := by simp [ha]
    simp only [List.takeWhile_cons, hpa, if_true]
    rw [ih h']

theorem descriptor_iff (cfg : Config) (v : Str) :
    isValidWidthOrDensityDescriptor cfg v = true ↔
      (v ≠ [] ∧ (v.getLastD ' ' = 'w' ∨ v.getLastD ' ' = 'x') ∧
        cfg.parseFloat32Ok v.dropLast = true) := by
  unfold isValidWidthOrDensityDescriptor
  split
  case isTrue hv =>
    have : v = [] := by simpa using hv
    simp [this]
  case isFalse hv =>
    have hvne : v ≠ [] := by simpa using hv
    show (if (!(List.getLastD v ' ' == 'w') && !(List.getLastD v ' ' == 'x')) = true then false
      else cfg.parseFloat32Ok v.dropLast) = true ↔ _
    split
    case isTrue hl =>
      have hl' := hl
      simp only [Bool.and_eq_true, Bool.not_eq_true', beq_eq_false_iff_ne] at hl'
      simp only [Bool.false_eq_true, false_iff]
      rintro ⟨-, hlast, -⟩
      rcases hlast with h | h
      · exact hl'.1 h
      · exact hl'.2 h
    case isFalse hl =>
      have hl' : v.getLastD ' ' = 'w' ∨ v.getLastD ' ' = 'x' := by
        rcases Bool.not_eq_true _ ▸ hl with h
        simp only [Bool.and_eq_false_iff, Bool.not_eq_false', beq_iff_eq] at h
        rcases h with h | h
        · exact Or.inl h
        · exact Or.inr h
      constructor
      · intro h; exact ⟨hvne, hl', h⟩
      · rintro ⟨-, -, h⟩; exact h

theorem srcsetCandidate_eq_spec (cfg : Config)
    (hpf : ∀ s : Str, ' ' ∈ s → cfg.parseFloat32Ok s = false)
    (baseURL rawSource : Str) :
    srcsetCandidate cfg baseURL rawSource = srcsetCandidateSpec cfg baseURL rawSource := by
  unfold srcsetCandidate srcsetCandidateSpec
  cases hsplit : goSplit ' ' (goTrimSpace rawSource) with
  | nil => exact absurd hsplit (goSplit_ne_nil _ _)
  | cons p0 rest =>
    have hjoin := goSplit_join ' ' (goTrimSpace rawSource)
    rw [hsplit] at hjoin
    have hp0 : ' ' ∉ p0 :=
      goSplit_no_sep ' ' (goTrimSpace rawSource) p0 (by rw [hsplit]; exact List.mem_cons_self _ _)
    cases rest with
    | nil =>
      have ht : goTrimSpace rawSource = p0 := by simpa [goJoin] using hjoin.symm
      rw [ht]
      dsimp only
      rw [takeWhile_no_sep ' ' p0 hp0, List.drop_length]
    | cons p1 rest2 =>
      cases rest2 with
      | nil =>
        have ht : goTrimSpace rawSource = p0 ++ ' ' :: p1 := by
          rw [← hjoin]; simp [goJoin]
        rw [ht]
        dsimp only
        rw [takeWhile_append_sep ' ' p0 p1 hp0, List.drop_left]
        cases hu : srcsetUrlPart cfg baseURL p0 with
        | none => simp
        | some u =>
          by_cases hd : isValidWidthOrDensityDescriptor cfg p1 = true
          · have hd' := (descriptor_iff cfg p1).mp hd
            have hor := hd'.2.1
            simp only [List.getLastD_eq_getLast?] at hor
            simp [hd, hor, hd'.1, hd'.2.2]
          · have hdf : isValidWidthOrDensityDescriptor cfg p1 = false := by
              simpa using hd
            have hd' : ¬(p1 ≠ [] ∧ (p1.getLastD ' ' = 'w' ∨ p1.getLastD ' ' = 'x') ∧
                cfg.parseFloat32Ok p1.dropLast = true) :=
              fun hc => hd ((descriptor_iff cfg p1).mpr hc)
            have hd'' : ¬(¬p1 = [] ∧
                (((List.getLast? p1).getD ' ' = 'w') ∨ ((List.getLast? p1).getD ' ' = 'x')) ∧
                cfg.parseFloat32Ok (List.dropLast p1) = true) := by
              simpa only [List.getLastD_eq_getLast?, ne_eq] using hd'
            simp [hdf, hd'']
      | cons p2 rs =>
        have ht : goTrimSpace rawSource = p0 ++ ' ' :: goJoin [' '] (p1 :: p2 :: rs) := by
          rw [← hjoin]
          show p0 ++ [' '] ++ goJoin [' '] (p1 :: p2 :: rs) = _
          simp
        have hD1 : goJoin [' '] (p1 :: p2 :: rs) = p1 ++ ' ' :: goJoin [' '] (p2 :: rs) := by
          show p1 ++ [' '] ++ goJoin [' '] (p2 :: rs) = _
          simp
        have hsp : ' ' ∈ goJoin [' '] (p1 :: p2 :: rs) := by rw [hD1]; simp
        have hcond : ¬(goJoin [' '] (p1 :: p2 :: rs) ≠ [] ∧
            ((goJoin [' '] (p1 :: p2 :: rs)).getLastD ' ' = 'w' ∨
              (goJoin [' '] (p1 :: p2 :: rs)).getLastD ' ' = 'x') ∧
            cfg.parseFloat32Ok (goJoin [' '] (p1 :: p2 :: rs)).dropLast = true) := by
          rintro ⟨hne, hlast, hpfT⟩
          have hdl := List.dropLast_append_getLast (l := goJoin [' '] (p1 :: p2 :: rs)) hne
          have hgl : (goJoin [' '] (p1 :: p2 :: rs)).getLastD ' ' =
              (goJoin [' '] (p1 :: p2 :: rs)).getLast hne := by
            rw [List.getLastD_eq_getLast?, List.getLast?_eq_getLast _ hne]
            rfl
          have hmem : ' ' ∈ (goJoin [' '] (p1 :: p2 :: rs)).dropLast ++
              [(goJoin [' '] (p1 :: p2 :: rs)).getLast hne] := by
            rw [hdl]; exact hsp
          rcases List.mem_append.mp hmem with hin | hin
          · have hf := hpf _ hin
            rw [hf] at hpfT
            exact Bool.false_ne_true hpfT
          · have hlch : ' ' = (goJoin [' '] (p1 :: p2 :: rs)).getLast hne := by
              simpa using hin
            rcases hlast with h | h
            · rw [hgl, ← hlch] at h; exact absurd h (by decide)
            · rw [hgl, ← hlch] at h; exact absurd h (by decide)
        rw [ht]
        dsimp only
        rw [takeWhile_append_sep ' ' p0 _ hp0, List.drop_left]
        have hcond' : ¬(¬goJoin [' '] (p1 :: p2 :: rs) = [] ∧
            (((List.getLast? (goJoin [' '] (p1 :: p2 :: rs))).getD ' ' = 'w') ∨
              ((List.getLast? (goJoin [' '] (p1 :: p2 :: rs))).getD ' ' = 'x')) ∧
            cfg.parseFloat32Ok (List.dropLast (goJoin [' '] (p1 :: p2 :: rs))) = true) := by
          simpa only [List.getLastD_eq_getLast?, ne_eq] using hcond
        cases hu : srcsetUrlPart cfg baseURL p0 with
        | none => simp
        | some u => simp [hcond']

/-- C7: sanitizeSrcsetAttr splits the value on comma-plus-whitespace
boundaries, handles each candidate exactly as the claim words it (URL
part verbatim iff it starts with data:, otherwise resolved with the
candidate dropped on failure; descriptor kept iff non-empty with last
character w or x and a float prefix, else dropped alone), and rejoins
the survivors with a comma and a space — provided the float parser
rejects strings containing a space, as strconv.ParseFloat does. -/
theorem c7_srcset_rewriting (cfg : Config)
    (hpf : ∀ s : Str, ' ' ∈ s → cfg.parseFloat32Ok s = false)
    (baseURL value : Str) :
    sanitizeSrcsetAttr cfg baseURL value =
      goJoin ", ".toList
        (List.filterMap (srcsetCandidateSpec cfg baseURL) (splitSrcsetAux value [])) := by
  unfold sanitizeSrcsetAttr
  congr 1
  exact List.filterMap_congr (fun c _ => srcsetCandidate_eq_spec cfg hpf baseURL c)

/-- C7 witness: the spec's own srcset scenario under the witness
configuration. -/
theorem c7_srcset_rewriting_witness :
    sanitizeSrcsetAttr cfgW exBase "a.jpg 1x, bad, b.jpg 2x".toList =
      goJoin ", ".toList
        (List.filterMap (srcsetCandidateSpec cfgW exBase)
          (splitSrcsetAux "a.jpg 1x, bad, b.jpg 2x".toList [])) :=
  c7_srcset_rewriting cfgW
    (fun s hs => by
      have hall : s.all Char.isDigit = false := by
        cases ha : s.all Char.isDigit
        · rfl
        · exact absurd (List.all_eq_true.mp ha ' ' hs) (by decide)
      show pfW s = false
      simp [pfW, hall])
    exBase "a.jpg 1x, bad, b.jpg 2x".toList

theorem prefEqTake {l₁ l₂ : Str} (h : l₁ <+: l₂) : l₁ = l₂.take l₁.length :=
  List.prefix_iff_eq_take.mp h

theorem takePref (n : Nat) (l : Str) : l.take n <+: l :=
  List.take_prefix n l

theorem prefComparable {l₁ l₂ l₃ : Str} (h₁ : l₁ <+: l₃) (h₂ : l₂ <+: l₃) :
    l₁ <+: l₂ ∨ l₂ <+: l₁ :=
  List.prefix_or_prefix_of_prefix h₁ h₂

theorem prefAppendRight {l l₁ l₂ : Str} (h : l ++ l₁ <+: l ++ l₂) : l₁ <+: l₂ :=
  ( List.prefix_append_right_inj l).mp h

theorem infixSplit {b s c : Str} (h : b <:+: (s ++ c)) :
    b <:+: s ∨ b <:+: c ∨
      ∃ b₁ b₂ : Str, b = b₁ ++ b₂ ∧ b₁ ≠ [] ∧ b₂ ≠ [] ∧ b₁ <:+ s ∧ b₂ <+: c := by
  obtain ⟨u, v, huv⟩ := h
  rw [List.append_assoc] at huv
  rcases List.append_eq_append_iff.mp huv with ⟨a', ha1, ha2⟩ | ⟨c', hc1, hc2⟩
  · rcases List.append_eq_append_iff.mp ha2 with ⟨x, hx1, hx2⟩ | ⟨y, hy1, hy2⟩
    · left
      exact ⟨u, x, by rw [ha1, hx1, List.append_assoc]⟩
    · by_cases hano : a' = []
      · subst hano
        right; left
        simp only [List.nil_append] at hy1
        exact ⟨[], v, by rw [hy2, ← hy1]; simp⟩
      · by_cases hyno : y = []
        · subst hyno
          left
          rw [List.append_nil] at hy1
          exact ⟨u, [], by rw [ha1, ← hy1]; simp⟩
        · right; right
          exact ⟨a', y, hy1, hano, hyno, ⟨u, ha1.symm⟩, ⟨v, hy2.symm⟩⟩
  · right; left
    exact ⟨c', v, by rw [hc2]; simp [List.append_assoc]⟩

theorem suffixSplit {p s c : Str} (h : p <:+ (s ++ c)) :
    p <:+ c ∨ ∃ p₁ : Str, p₁ ≠ [] ∧ p = p₁ ++ c ∧ p₁ <:+ s := by
  obtain ⟨u, hu⟩ := h
  rcases List.append_eq_append_iff.mp hu with ⟨a', ha1, ha2⟩ | ⟨c', hc1, hc2⟩
  · by_cases hano : a' = []
    · subst hano
      left
      simp only [List.nil_append] at ha2
      rw [ha2]
    · right
      exact ⟨a', hano, ha2, ⟨u, ha1.symm⟩⟩
  · left
    exact ⟨c', hc2.symm⟩

theorem chunkOK_nil : ChunkOK [] := by
  unfold ChunkOK
  decide

theorem chunkOK_append {s c : Str} (hs : ChunkOK s) (hc : ChunkOK c) : ChunkOK (s ++ c) := by
  intro b hb
  obtain ⟨hs1, hs2⟩ := hs b hb
  obtain ⟨hc1, hc2⟩ := hc b hb
  constructor
  · intro hinf
    rcases infixSplit hinf with h | h | ⟨b₁, b₂, hbe, hb₁, hb₂, hsuf, hpre⟩
    · exact hs1 h
    · exact hc1 h
    · have hpb : b₁ <+: b := ⟨b₂, hbe.symm⟩
      have htake := prefEqTake hpb
      have hlen := hpb.length_le
      have h0 : 0 < b₁.length := List.length_pos.mpr hb₁
      exact hs2 b₁.length (by omega) h0 (htake ▸ hsuf)
  · intro k hk hk0 hsuf
    rcases suffixSplit hsuf with h | ⟨p₁, hp₁, hpe, hsufs⟩
    · exact hc2 k hk hk0 h
    · have hpp : p₁ <+: b.take k := ⟨c, hpe.symm⟩
      have hpb : p₁ <+: b := hpp.trans (takePref k b)
      have htake := prefEqTake hpb
      have hlen := hpb.length_le
      have h0 : 0 < p₁.length := List.length_pos.mpr hp₁
      exact hs2 p₁.length (by omega) h0 (htake ▸ hsufs)

theorem chunkOK_no_lt {c : Str} (h : '<' ∉ c) : ChunkOK c := by
  intro b hb
  simp only [badPatterns, List.mem_map] at hb
  obtain ⟨bn, hbn, rfl⟩ := hb
  constructor
  · intro hinf
    exact h (hinf.subset (List.mem_cons_self _ _))
  · intro k hk hk0 hsuf
    apply h
    apply hsuf.subset
    cases k with
    | zero => omega
    | succ k' => simp

theorem chunkOK_lt {body : Str} (hlt : '<' ∉ body) (hgt : '>' ∈ body)
    (hb : ∀ bn ∈ badNames, ¬ bn <+: body) : ChunkOK ('<' :: body) := by
  intro b hbmem
  simp only [badPatterns, List.mem_map] at hbmem
  obtain ⟨bn, hbn, rfl⟩ := hbmem
  have hgtbn : '>' ∉ bn := by
    have hfact : ∀ x ∈ badNames, '>' ∉ x := by decide
    exact hfact bn hbn
  constructor
  · rintro ⟨u, v, huv⟩
    cases u with
    | nil =>
      simp only [List.nil_append, List.cons_append, List.cons.injEq] at huv
      exact hb bn hbn ⟨v, huv.2⟩
    | cons x u' =>
      have hx : x = '<' ∧ u' ++ ('<' :: bn) ++ v = body := by
        simpa using huv
      apply hlt
      rw [← hx.2]
      simp
  · intro k hk hk0 hsuf
    cases k with
    | zero => omega
    | succ k' =>
      rw [List.take_succ_cons] at hsuf
      obtain ⟨u, hu⟩ := hsuf
      cases u with
      | nil =>
        simp only [List.nil_append, List.cons.injEq] at hu
        apply hgtbn
        have hin : '>' ∈ bn.take k' := hu.2 ▸ hgt
        exact (takePref k' bn).subset hin
      | cons x u' =>
        have hx : x = '<' ∧ u' ++ '<' :: List.take k' bn = body := by
          simpa using hu
        apply hlt
        rw [← hx.2]
        simp

theorem notPre_append_cons {bn t r : Str} {d : Char} (hbn : ¬ bn <+: t) (hd : d ∉ bn) :
    ¬ bn <+: (t ++ d :: r) := by
  intro h
  rcases le_or_lt bn.length t.length with hle | hlt
  · apply hbn
    have h1 := prefEqTake h
    rw [List.take_append_of_le_length hle] at h1
    rw [h1]
    exact takePref _ _
  · have ht : t <+: bn := by
      rcases prefComparable h ( List.prefix_append t (d :: r)) with h' | h'
      · exact absurd h' hbn
      · exact h'
    obtain ⟨e, he⟩ := ht
    have he' : e ≠ [] := by
      intro h0
      subst h0
      rw [List.append_nil] at he
      subst he
      omega
    rw [← he] at h
    have h2 := prefAppendRight h
    obtain ⟨f, hf⟩ := h2
    cases e with
    | nil => exact he' rfl
    | cons e0 es =>
      have he0 : e0 = d := by
        simpa using congrArg List.head? hf
      apply hd
      rw [← he]
      subst he0
      simp

theorem escapeChar_no_lt (c : Char) : '<' ∉ escapeChar c := by
  unfold escapeChar
  repeat' split
  any_goals decide
  rename_i h1 h2 h3 h4 h5
  simp only [List.mem_singleton]
  intro he
  exact h3 (by simp [he.symm])

theorem escapeString_no_lt (s : Str) : '<' ∉ escapeString s := by
  unfold escapeString
  intro h
  rcases List.mem_flatMap.mp h with ⟨a, _, hmem⟩
  exact escapeChar_no_lt a hmem

theorem goJoin_no_lt (sep : Str) (hsep : '<' ∉ sep) :
    ∀ l : List Str, (∀ x ∈ l, '<' ∉ x) → '<' ∉ goJoin sep l := by
  intro l
  induction l with
  | nil => intro _; simp [goJoin]
  | cons x xs ih =>
    intro h
    cases xs with
    | nil => simpa [goJoin] using h x (List.mem_cons_self _ _)
    | cons y ys =>
      show '<' ∉ x ++ sep ++ goJoin sep (y :: ys)
      intro hin
      rcases List.mem_append.mp hin with hin1 | hin2
      · rcases List.mem_append.mp hin1 with ha | hb
        · exact h x (List.mem_cons_self _ _) ha
        · exact hsep hb
      · exact (ih (fun z hz => h z (List.mem_cons.mpr (Or.inr hz)))) hin2

theorem sanitizeAttrPairs_valid {cfg : Config} {baseURL t : Str} {attrs : List (Str × Str)}
    {pr : Str × Str} (h : pr ∈ sanitizeAttrPairs cfg baseURL t attrs) :
    isValidAttribute cfg t pr.1 = true := by
  simp only [sanitizeAttrPairs, List.mem_filterMap] at h
  obtain ⟨a, ha, hk⟩ := h
  rw [Option.map_eq_some'] at hk
  obtain ⟨v1, hkept, hpair⟩ := hk
  have hfst : pr.1 = a.1 := by rw [← hpair]
  rw [hfst]
  by_contra hnv
  have hnv' : isValidAttribute cfg t a.1 = false := by simpa using hnv
  rw [keptAttribute, hnv'] at hkept
  simp at hkept

theorem isValidAttribute_no_lt {cfg : Config} (hsvg : SvgTablesOK cfg) {t k : Str}
    (h : isValidAttribute cfg t k = true) : '<' ∉ k := by
  unfold isValidAttribute at h
  cases hf : allowedAttrs.find? (fun p => p.1 == t) with
  | some p =>
    rw [hf] at h
    have h' : p.2.contains k = true := h
    have hpmem : p ∈ allowedAttrs := List.mem_of_find?_eq_some hf
    have hkmem : k ∈ p.2 := containsB_iff.mp h'
    have hfact : ∀ q ∈ allowedAttrs, ∀ a ∈ q.2, '<' ∉ a := by decide
    exact hfact p hpmem k hkmem
  | none =>
    rw [hf] at h
    have h' : (if cfg.allowedSvgTags.contains t = true then
        cfg.allowedSvgAttrs.contains k else false) = true := h
    split at h'
    · exact hsvg.2 k (containsB_iff.mp h')
    · exact absurd h' (by simp)

theorem extras_no_lt (t : Str) : ∀ e ∈ (getExtraAttributes t).2, '<' ∉ e := by
  unfold getExtraAttributes
  split
  · decide
  · split
    · decide
    · split
      · decide
      · split
        · decide
        · decide

theorem renderAttr_no_lt {pr : Str × Str} (hk : '<' ∉ pr.1) : '<' ∉ renderAttr pr := by
  unfold renderAttr
  intro h
  rcases List.mem_append.mp h with h | h
  · exact hk h
  · rcases List.mem_cons.mp h with h | h
    · exact absurd h (by decide)
    · rcases List.mem_cons.mp h with h | h
      · exact absurd h (by decide)
      · rcases List.mem_append.mp h with h | h
        · exact escapeString_no_lt pr.2 h
        · exact absurd h (by decide)

theorem sanitizeAttributes_no_lt (cfg : Config) (hsvg : SvgTablesOK cfg)
    (baseURL t : Str) (attrs : List (Str × Str)) :
    '<' ∉ (sanitizeAttributes cfg baseURL t attrs).2 := by
  unfold sanitizeAttributes
  apply goJoin_no_lt " ".toList (by decide)
  intro x hx
  rcases List.mem_append.mp hx with hx | hx
  · rcases List.mem_map.mp hx with ⟨pr, hpr, rfl⟩
    exact renderAttr_no_lt (isValidAttribute_no_lt hsvg (sanitizeAttrPairs_valid hpr))
  · exact extras_no_lt t x hx

theorem validTag_ok {cfg : Config} (hsvg : SvgTablesOK cfg) {t : Str}
    (h : isValidTag cfg t = true) : TagOK t := by
  simp only [isValidTag, Bool.or_eq_true] at h
  rcases h with (h | h) | h
  · have hmem : t ∈ allowedTags := containsB_iff.mp h
    have hfact : ∀ x ∈ allowedTags, '<' ∉ x ∧ ∀ bn ∈ badNames, ¬ bn <+: x := by decide
    exact hfact t hmem
  · exact hsvg.1 t (List.mem_append.mpr (Or.inl (containsB_iff.mp h)))
  · exact hsvg.1 t (List.mem_append.mpr (Or.inr (containsB_iff.mp h)))

theorem chunkOK_wrapperOpen : ChunkOK wrapperOpen := by
  unfold ChunkOK
  decide

theorem chunkOK_closeIframe : ChunkOK closeIframeStr := by
  unfold ChunkOK
  decide

theorem chunkOK_closeDiv : ChunkOK closeDivStr := by
  unfold ChunkOK
  decide

theorem chunkOK_open_gen {t : Str} {d : Char} {r : Str} (htag : TagOK t)
    (hd : d = ' ' ∨ d = '>' ∨ d = '/')
    (hltr : '<' ∉ r) (hgt : '>' ∈ d :: r) :
    ChunkOK ('<' :: (t ++ d :: r)) := by
  apply chunkOK_lt
  · intro h
    rcases List.mem_append.mp h with h | h
    · exact htag.1 h
    · rcases List.mem_cons.mp h with h | h
      · rcases hd with rfl | rfl | rfl <;> simp at h
      · exact hltr h
  · exact List.mem_append.mpr (Or.inr hgt)
  · intro bn hbn
    apply notPre_append_cons (htag.2 bn hbn)
    have hfact : ∀ x ∈ badNames, ' ' ∉ x ∧ '>' ∉ x ∧ '/' ∉ x := by decide
    rcases hd with rfl | rfl | rfl
    · exact (hfact bn hbn).1
    · exact (hfact bn hbn).2.1
    · exact (hfact bn hbn).2.2

theorem chunkOK_close {t : Str} (hlt : '<' ∉ t) : ChunkOK ('<' :: '/' :: (t ++ ['>'])) := by
  have hbody : ChunkOK ('<' :: ('/' :: (t ++ ['>'])))  := by
    apply chunkOK_lt
    · intro h
      rcases List.mem_cons.mp h with h | h
      · exact absurd h (by decide)
      · rcases List.mem_append.mp h with h | h
        · exact hlt h
        · exact absurd h (by decide)
    · simp
    · intro bn hbn hpre
      obtain ⟨u, hu⟩ := hpre
      cases bn with
      | nil =>
        revert hbn
        decide
      | cons b0 bs =>
        have hb0 : b0 = '/' := by
          simpa using congrArg List.head? hu
        subst hb0
        have hfact : ∀ x ∈ badNames, x.head? ≠ some '/' := by decide
        exact hfact _ hbn rfl
  exact hbody

theorem step_buffer_chunk (cfg : Config) (hsvg : SvgTablesOK cfg) (baseURL : Str)
    (st : SanitizeState) (token : Token) :
    ∃ chunk : Str, (sanitizeStep cfg baseURL st token).buffer = st.buffer ++ chunk ∧
      ChunkOK chunk := by
  cases token with
  | textTok d =>
    simp only [sanitizeStep]
    split
    · exact ⟨[], by simp, chunkOK_nil⟩
    · split
      · exact ⟨[], by simp, chunkOK_nil⟩
      · exact ⟨escapeString d, rfl, chunkOK_no_lt (escapeString_no_lt d)⟩
  | endTag t =>
    simp only [sanitizeStep]
    split
    · exact ⟨[], by simp, chunkOK_nil⟩
    · split
      case isTrue hcond =>
        have hv : isValidTag cfg t = true := by
          simp only [Bool.and_eq_true] at hcond
          exact hcond.1
        have htag := validTag_ok hsvg hv
        exact ⟨_, rfl, chunkOK_close htag.1⟩
      case isFalse =>
        split
        · exact ⟨[], by simp, chunkOK_nil⟩
        · exact ⟨[], by simp, chunkOK_nil⟩
  | startTag t attrs =>
    simp only [sanitizeStep]
    split
    case isTrue hv =>
      have htag := validTag_ok hsvg hv
      have hattr := sanitizeAttributes_no_lt cfg hsvg baseURL t attrs
      split
      case isTrue hreq =>
        have hopen : ChunkOK (if (sanitizeAttributes cfg baseURL t attrs).1.length > 0 then
            '<' :: (t ++ ' ' :: ((sanitizeAttributes cfg baseURL t attrs).2 ++ ['>']))
          else '<' :: (t ++ ['>'])) := by
          split
          · apply chunkOK_open_gen htag (Or.inl rfl)
            · intro h
              rcases List.mem_append.mp h with h | h
              · exact hattr h
              · exact absurd h (by decide)
            · simp
          · apply chunkOK_open_gen htag (Or.inr (Or.inl rfl))
            · simp
            · simp
        have hwrap : ChunkOK (if isVideoIframe cfg t attrs then wrapperOpen else []) := by
          split
          · exact chunkOK_wrapperOpen
          · exact chunkOK_nil
        have hwrap2 : ChunkOK (if isVideoIframe cfg t attrs then closeDivStr else []) := by
          split
          · exact chunkOK_closeDiv
          · exact chunkOK_nil
        split
        · exact ⟨_, rfl,
            chunkOK_append (chunkOK_append (chunkOK_append hwrap hopen) chunkOK_closeIframe)
              hwrap2⟩
        · exact ⟨_, rfl, chunkOK_append hwrap hopen⟩
      case isFalse =>
        exact ⟨[], by simp, chunkOK_nil⟩
    case isFalse =>
      split
      · exact ⟨[], by simp, chunkOK_nil⟩
      · exact ⟨[], by simp, chunkOK_nil⟩
  | selfClosingTag t attrs =>
    simp only [sanitizeStep]
    split
    case isTrue hv =>
      have htag := validTag_ok hsvg hv
      have hattr := sanitizeAttributes_no_lt cfg hsvg baseURL t attrs
      split
      case isTrue hreq =>
        split
        · refine ⟨_, rfl, ?_⟩
          apply chunkOK_open_gen htag (Or.inl rfl)
          · intro h
            rcases List.mem_append.mp h with h | h
            · exact hattr h
            · exact absurd h (by decide)
          · simp
        · refine ⟨_, rfl, ?_⟩
          apply chunkOK_open_gen htag (Or.inr (Or.inr rfl))
          · simp
          · simp
      case isFalse => exact ⟨[], by simp, chunkOK_nil⟩
    case isFalse => exact ⟨[], by simp, chunkOK_nil⟩

theorem processTokens_chunkOK (cfg : Config) (hsvg : SvgTablesOK cfg) (baseURL : Str) :
    ∀ (tokens : List Token) (st : SanitizeState), ChunkOK st.buffer →
      ChunkOK (processTokens cfg baseURL st tokens).buffer := by
  intro tokens
  induction tokens with
  | nil => intro st h; exact h
  | cons tok ts ih =>
    intro st h
    show ChunkOK (processTokens cfg baseURL (sanitizeStep cfg baseURL st tok) ts).buffer
    apply ih
    obtain ⟨chunk, hbuf, hch⟩ := step_buffer_chunk cfg hsvg baseURL st tok
    rw [hbuf]
    exact chunkOK_append h hch

/-- C1: for every configuration whose SVG tables satisfy the
specification's constraints (no table name extends a blocked tag name
and names contain no left angle bracket), every base URL, every token
stream and either termination, the output of Sanitize contains no
occurrence of a blocked-tag opening pattern: blocked tags are never
serialized and all emitted text and attribute values are HTML-escaped,
so no attacker-controlled character can form these substrings. -/
theorem c1_no_blocked_markup (cfg : Config) (hsvg : SvgTablesOK cfg) (baseURL : Str)
    (tokens : List Token) (term : Termination) :
    ∀ b ∈ badPatterns, ¬ b <:+: Sanitize cfg baseURL tokens term := by
  have hout : ChunkOK (Sanitize cfg baseURL tokens term) := by
    cases term with
    | fatalError =>
      unfold Sanitize
      rw [sanitizeLoop_fatal]
      exact chunkOK_nil
    | eof =>
      unfold Sanitize
      rw [sanitizeLoop_eof]
      exact processTokens_chunkOK cfg hsvg baseURL tokens initialState chunkOK_nil
  intro b hb
  exact (hout b hb).1

/-- C1 witness: on a concrete hostile stream the output contains none
of the three forbidden substrings. -/
theorem c1_no_blocked_markup_witness :
    ¬ "<script".toList <:+: Sanitize cfgW exBase
      [Token.startTag "script".toList [], Token.textTok "alert(1)".toList,
       Token.endTag "script".toList, Token.startTag "p".toList [],
       Token.textTok "a<script>b".toList, Token.endTag "p".toList] .eof :=
  c1_no_blocked_markup cfgW
    (by
      constructor
      · intro t ht
        simp [cfgW] at ht
      · intro a ha
        simp [cfgW] at ha)
    exBase
    [Token.startTag "script".toList [], Token.textTok "alert(1)".toList,
     Token.endTag "script".toList, Token.startTag "p".toList [],
     Token.textTok "a<script>b".toList, Token.endTag "p".toList] .eof
    "<script".toList (by decide)
